import Mathlib

/-!
Verification of the stroke-timeline engine of the everydays10paint repository.

The embedding models the two-layer compositor, snapshot undo stack, stroke
recorder and timeline-reconstruction walk of `src/hooks/useCanvasLayers.ts`,
the App component (`playTimelapse` / `playNext`, `handleStrokeRecord`,
`saveCurrentStroke`) and the stroke store of `src/utils/db.ts`.

Raster surfaces are modelled at the canvas's logical resolution (the source
scales every 2d context by the device pixel ratio precisely so that all
drawing coordinates live in the fixed 1080x1080 logical space); a surface is
a map from logical coordinates to an optional paint colour, `none` meaning a
transparent (unpainted) location.  Canvas `fillRect` paints an axis-aligned
rectangle opaquely and `drawImage` of one layer onto another overwrites the
destination exactly at the source's painted locations, which is the
source-over rule for the fully-opaque / fully-transparent paint this program
produces.  Coordinates are rational numbers standing in for the source's
floats.
-/

namespace Everydays

/-- A raster surface: colour (a CSS hex string) at each logical coordinate,
`none` where nothing has been painted. -/
def Surface : Type := ℚ × ℚ → Option String

/-- Result of `ctx.clearRect(0, 0, CANVAS_SIZE, CANVAS_SIZE)`: a fully
transparent surface. -/
def blankSurface : Surface := fun _ => none

/-- Canvas `ctx.fillRect(x, y, w, h)` with fill colour `c`: overwrite the
rectangle, keep the rest of the surface. -/
def fillRect (x y w h : ℚ) (c : String) (s : Surface) : Surface :=
  fun p => if x ≤ p.1 ∧ p.1 < x + w ∧ y ≤ p.2 ∧ p.2 < y + h then some c else s p

/-- Canvas `ctx.drawImage(top)` onto a surface holding `bot`: the source's
painted pixels overwrite the destination, transparent pixels leave it. -/
def overlay (top bot : Surface) : Surface :=
  fun p =>
    match top p with
    | some c => some c
    | none => bot p

/-- The white background fill of `renderComposite`. -/
def whiteFill : Surface := fun _ => some "#FFFFFF"

/-- The visible composite produced by `renderComposite` in
`useCanvasLayers.ts`: white background, then the BASE layer, then the ACTIVE
layer drawn on top, in that order. -/
def compositeOf (base active : Surface) : Surface :=
  overlay active (overlay base whiteFill)

/-- Least natural number `n` with `m ≤ n * n`. -/
def ceilSqrtNat (m : ℕ) : ℕ :=
  let s := Nat.sqrt m
  if s * s = m then s else s + 1

/-- Exact counterpart of `Math.ceil(Math.sqrt q)` for a rational radicand:
the least natural `n` with `q ≤ n ^ 2` (and `0` for non-positive `q`).  The
source computes `Math.ceil(distance / (brushSize / 4))` from the
floating-point `distance = Math.sqrt(dx*dx + dy*dy)`; since that square root
is irrational in general, the embedding computes the identical integer
directly from the rational squared distance:
`⌈√distSq / k⌉ = ceilSqrtQ (distSq / (k * k))` for `k > 0`. -/
def ceilSqrtQ (q : ℚ) : ℕ :=
  if 0 < q then ceilSqrtNat ⌈q⌉.toNat else 0

/-- A point as recorded through the `onStrokeRecord` callback of
`drawStroke` (coordinates, `Date.now()` timestamp and the `isFirst` flag). -/
structure RecPoint where
  x : ℚ
  y : ℚ
  timestamp : ℤ
  isFirst : Bool
  deriving DecidableEq

/-- The mutable canvas state owned by `useCanvasLayers`: the BASE, ACTIVE and
display canvases, the undo stack of ACTIVE snapshots (a JS array, pushed and
popped at its end), the last drawn point of the in-progress gesture, and the
stream of points emitted to `onStrokeRecord`. -/
structure CanvasState where
  base : Surface
  active : Surface
  display : Surface
  undoStack : List Surface
  lastPoint : Option (ℚ × ℚ)
  recorded : List RecPoint

/-- `renderComposite`: redraw the display canvas as white fill, then BASE,
then ACTIVE. -/
def renderComposite (st : CanvasState) : CanvasState :=
  { st with display := compositeOf st.base st.active }

/-- `clearActive`: blank the ACTIVE canvas, empty the undo stack, and
recomposite. -/
def clearActive (st : CanvasState) : CanvasState :=
  renderComposite { st with active := blankSurface, undoStack := [] }

/-- `undo`: if the undo stack is empty return `false` and leave everything
unchanged; otherwise pop the most recent snapshot (the end of the JS array),
restore ACTIVE to it, recomposite, and return `true`. -/
def undo (st : CanvasState) : CanvasState × Bool :=
  match st.undoStack.getLast? with
  | none => (st, false)
  | some prev =>
    (renderComposite { st with active := prev, undoStack := st.undoStack.dropLast }, true)

/-- `mergeLayers`: draw the ACTIVE layer onto BASE (painted pixels overwrite)
and then `clearActive` (which also empties the undo stack and
recomposites). -/
def mergeLayers (st : CanvasState) : CanvasState :=
  clearActive { st with base := overlay st.active st.base }

/-- One brush dab: `ctx.fillRect(x - brushSize/2, y - brushSize/2, brushSize,
brushSize)`. -/
def paintDab (x y size : ℚ) (c : String) (s : Surface) : Surface :=
  fillRect (x - size / 2) (y - size / 2) size size c s

/-- The connecting dabs painted between the previous point `(px, py)` and the
current point `(x, y)` in `drawStroke`, `replayStroke` and `playNext`:
when the distance is positive, `steps = Math.ceil(distance / (brushSize/4))`
dabs are interpolated at parameters `t = i / steps`, `i = 0 .. steps`
(endpoints included); a zero distance paints nothing.  `ceilSqrtQ` computes
the exact value of the source's `Math.ceil(Math.sqrt(distSq) / (size/4))`
from the rational squared distance. -/
def paintSegment (px py x y size : ℚ) (c : String) (s : Surface) : Surface :=
  let dx := x - px
  let dy := y - py
  let distSq := dx * dx + dy * dy
  if 0 < distSq then
    let steps := ceilSqrtQ (distSq / (size / 4 * (size / 4)))
    (List.range (steps + 1)).foldl
      (fun acc i =>
        let t := (i : ℚ) / (steps : ℚ)
        paintDab (px + dx * t) (py + dy * t) size c acc)
      s
  else s

/-- The paint branch of `drawStroke`: `if (lastPointRef.current &&
!isFirstPoint)` paint the interpolated segment from the previous point,
`else` paint a single dab at the current position. -/
def livePaint (lastPoint : Option (ℚ × ℚ)) (isFirst : Bool) (x y size : ℚ) (c : String)
    (s : Surface) : Surface :=
  match lastPoint, isFirst with
  | some lp, false => paintSegment lp.1 lp.2 x y size c s
  | _, _ => paintDab x y size c s

/-- `drawStroke(x, y, isFirstPoint)` of `useCanvasLayers.ts`: on the first
point of a stroke push a snapshot of ACTIVE onto the undo stack; then, if a
previous point exists and this is not the first point, paint the interpolated
segment from it (painting nothing when the distance is zero), otherwise paint
a single dab; finally remember the point as the new last point, emit it to
`onStrokeRecord` with the ambient `Date.now()` value `now`, and
recomposite. -/
def drawStroke (x y : ℚ) (isFirst : Bool) (now : ℤ) (color : String) (brushSize : ℚ)
    (st : CanvasState) : CanvasState :=
  let st1 := if isFirst then { st with undoStack := st.undoStack ++ [st.active] } else st
  renderComposite
    { st1 with
      active := livePaint st1.lastPoint isFirst x y brushSize color st1.active
      lastPoint := some (x, y)
      recorded := st1.recorded ++ [⟨x, y, now, isFirst⟩] }

/-- A sampled stroke point persisted in the stroke store. -/
structure Point where
  x : ℚ
  y : ℚ
  timestamp : ℤ
  deriving DecidableEq

/-- A persisted stroke record (`Stroke` of `src/utils/db.ts`). -/
structure Stroke where
  id : String
  turnNumber : ℤ
  timestamp : ℤ
  color : String
  brushSize : ℚ
  points : List Point
  deriving DecidableEq

/-- The indexed loop of `replayStroke`: each point is painted as a segment
from its predecessor when one exists, or as a single dab for the first
point. -/
def replayFrom (size : ℚ) (c : String) : Option Point → List Point → Surface → Surface
  | _, [], s => s
  | prev, p :: rest, s =>
    let s1 :=
      match prev with
      | some q => paintSegment q.x q.y p.x p.y size c s
      | none => paintDab p.x p.y size c s
    replayFrom size c (some p) rest s1

/-- The paint effect of `replayStroke` on the ACTIVE surface: replay the
whole stroke, point by point. -/
def replayPaint (stroke : Stroke) (s : Surface) : Surface :=
  replayFrom stroke.brushSize stroke.color none stroke.points s

/-- `replayStroke` of `useCanvasLayers.ts`: paint the whole stroke onto
ACTIVE and recomposite (neither the undo stack nor `lastPointRef` is
touched). -/
def replayStroke (stroke : Stroke) (st : CanvasState) : CanvasState :=
  renderComposite { st with active := replayPaint stroke st.active }

/-- One entry of the flattened timeline built by `playTimelapse`: the stroke
object, the index of the point inside it, and the point's timestamp relative
to the first retrieved stroke's start timestamp. -/
structure TimelineItem where
  stroke : Stroke
  pointIndex : ℕ
  relativeTime : ℤ
  deriving DecidableEq

/-- The flatten step of `playTimelapse`: for each stroke of the retrieved
list, in list order, one timeline entry per point, in point order, with
`relativeTime = point.timestamp - baseTime` where `baseTime` is the first
stroke's `timestamp` (`strokes[0].timestamp`; the function is only entered
with a non-empty list). -/
def buildTimeline (strokes : List Stroke) : List TimelineItem :=
  let baseTime := ((strokes.head?).map Stroke.timestamp).getD 0
  strokes.flatMap fun s =>
    s.points.mapIdx fun i p => ⟨s, i, p.timestamp - baseTime⟩

/-- The comparator `(a, b) => a.relativeTime - b.relativeTime` passed to
`timeline.sort`. -/
def itemLe (a b : TimelineItem) : Prop := a.relativeTime ≤ b.relativeTime

instance : DecidableRel itemLe := fun a b =>
  inferInstanceAs (Decidable (a.relativeTime ≤ b.relativeTime))

instance : IsTotal TimelineItem itemLe := ⟨fun a b => Int.le_total a.relativeTime b.relativeTime⟩

instance : IsTrans TimelineItem itemLe := ⟨fun _ _ _ h1 h2 => le_trans h1 h2⟩

/-- `timeline.sort((a, b) => a.relativeTime - b.relativeTime)` of
`playTimelapse`.  `Array.prototype.sort` is stable per the ECMAScript
specification, so it is embedded as a stable sort. -/
def sortTimeline (strokes : List Stroke) : List TimelineItem :=
  List.insertionSort itemLe (buildTimeline strokes)

/-- The walk state of `playNext`: the `completedStrokes` set (a JS `Set` of
stroke ids, modelled as its insertion-ordered id list) together with the
ACTIVE surface the timeline is painted onto.  (`playNext` also mirrors every
paint to the display canvas through `renderComposite`; the display is the
derived image `compositeOf base active` and is tracked in `CanvasState` for
the compositor operations.) -/
structure WalkState where
  completed : List String
  active : Surface

/-- Fallback point for out-of-range indexing; the timeline only ever indexes
in range. -/
def defaultPoint : Point := ⟨0, 0, 0⟩

/-- Step 4 of the walk in `playNext`: draw the current timeline point, as a
segment from the stroke's previous point when `pointIndex > 0` (painting
nothing when the distance is zero), or as a single first dab. -/
def drawTimelinePoint (it : TimelineItem) (s : Surface) : Surface :=
  let pt := (it.stroke.points[it.pointIndex]?).getD defaultPoint
  if 0 < it.pointIndex then
    let prev := (it.stroke.points[it.pointIndex - 1]?).getD defaultPoint
    paintSegment prev.x prev.y pt.x pt.y it.stroke.brushSize it.stroke.color s
  else
    paintDab pt.x pt.y it.stroke.brushSize it.stroke.color s

/-- One iteration of the timeline walk of `playNext`: when the entry is a
first point (`pointIndex === 0`) of a stroke whose id is not in
`completedStrokes`, clear the ACTIVE surface, redraw (in stroke-list order)
every stroke whose id is in `completedStrokes` in its entirety via
`replayStroke`, and add the entry's stroke id to `completedStrokes`; then
draw the entry's point. -/
def walkStep (strokes : List Stroke) (st : WalkState) (it : TimelineItem) : WalkState :=
  let st1 :=
    if it.pointIndex = 0 ∧ it.stroke.id ∉ st.completed then
      { completed := st.completed ++ [it.stroke.id]
        active :=
          strokes.foldl
            (fun acc s => if s.id ∈ st.completed then replayPaint s acc else acc)
            blankSurface }
    else st
  { st1 with active := drawTimelinePoint it st1.active }

/-- The walk starts from a cleared ACTIVE surface (`clearActive()` is called
before playback) and an empty `completedStrokes` set. -/
def walkInit : WalkState := ⟨[], blankSurface⟩

/-- The timeline walk of `playNext` over a list of timeline entries. -/
def walk (strokes : List Stroke) (items : List TimelineItem) : WalkState :=
  items.foldl (walkStep strokes) walkInit

/-- A stroke id counts as started in a list of timeline entries when the
list contains that stroke's first point. -/
def startedIn (items : List TimelineItem) (sid : String) : Prop :=
  ∃ it ∈ items, it.pointIndex = 0 ∧ it.stroke.id = sid

instance (items : List TimelineItem) (sid : String) : Decidable (startedIn items sid) :=
  List.decidableBEx _ items

/-- A stroke's last point has been drawn in a list of timeline entries when
the list contains the entry of its final point. -/
def lastPointDrawnIn (items : List TimelineItem) (s : Stroke) : Prop :=
  ∃ it ∈ items, it.stroke = s ∧ it.pointIndex + 1 = s.points.length

instance (items : List TimelineItem) (s : Stroke) : Decidable (lastPointDrawnIn items s) :=
  List.decidableBEx _ items

/-- The number of interpolation steps the source computes between two sample
points: `Math.ceil(distance / (brushSize / 4))`. -/
def interpSteps (distance brushSize : ℚ) : ℤ := ⌈distance / (brushSize / 4)⌉

/-- The in-progress stroke accumulated by `handleStrokeRecord` in
`currentStrokeRef`. -/
structure CurrentStroke where
  id : String
  turnNumber : ℤ
  startTime : ℤ
  color : String
  brushSize : ℚ
  points : List Point
  deriving DecidableEq

/-- The `Stroke` record built from `currentStrokeRef` by `saveCurrentStroke`
and the `handlePointerUp` wrapper (`timestamp` is the recorded
`startTime`). -/
def toStroke (c : CurrentStroke) : Stroke :=
  ⟨c.id, c.turnNumber, c.startTime, c.color, c.brushSize, c.points⟩

/-- The guard shared by `saveCurrentStroke` and the `handlePointerUp`
wrapper: a stroke is submitted to `saveStroke` only when
`currentStrokeRef.current` exists and `points.length > 0`. -/
def strokeToSave : Option CurrentStroke → Option Stroke
  | some c => if 0 < c.points.length then some (toStroke c) else none
  | none => none

/-- `db.put('strokes', stroke)` with key path `id`: replace the record with
the same id if one exists, otherwise append. -/
def putStroke (store : List Stroke) (s : Stroke) : List Stroke :=
  if store.any (fun t => t.id == s.id) then
    store.map fun t => if t.id == s.id then s else t
  else store ++ [s]

/-- `saveCurrentStroke` (and identically the `handlePointerUp` wrapper):
persist the current stroke and reset `currentStrokeRef` to `null` when the
guard passes; otherwise leave the store and `currentStrokeRef` unchanged. -/
def saveCurrentStroke (cur : Option CurrentStroke) (store : List Stroke) :
    List Stroke × Option CurrentStroke :=
  match strokeToSave cur with
  | some s => (putStroke store s, none)
  | none => (store, cur)

/-! Claim-level predicates and concrete inputs used by counterexamples and
witnesses. -/

/-- Claim C1's completion rule at a given stroke set: along every prefix of
the sorted timeline, a stroke's id is in the walk's `completed` set only when
that stroke's last point has already been drawn (its final point's entry lies
in the prefix). -/
def completedOnlyAfterLastPoint (strokes : List Stroke) : Prop :=
  ∀ k ∈ List.range ((sortTimeline strokes).length + 1),
    ∀ s ∈ strokes,
      s.id ∈ (walk strokes ((sortTimeline strokes).take k)).completed →
        lastPointDrawnIn ((sortTimeline strokes).take k) s

instance (strokes : List Stroke) : Decidable (completedOnlyAfterLastPoint strokes) := by
  unfold completedOnlyAfterLastPoint; infer_instance

/-- Claim C2's tie-break rule: lexicographic order on
`(turnNumber, strokeTimestamp, pointIndex)`. -/
def tupleLe (a b : TimelineItem) : Prop :=
  a.stroke.turnNumber < b.stroke.turnNumber ∨
    (a.stroke.turnNumber = b.stroke.turnNumber ∧
      (a.stroke.timestamp < b.stroke.timestamp ∨
        (a.stroke.timestamp = b.stroke.timestamp ∧ a.pointIndex ≤ b.pointIndex)))

instance : DecidableRel tupleLe := fun a b => by unfold tupleLe; infer_instance

/-- Claim C2 at a given stroke set: the sorted timeline is ordered by
timestamp, and every pair of entries with equal timestamps is ordered by the
tuple `(turnNumber, strokeTimestamp, pointIndex)`. -/
def claimC2At (strokes : List Stroke) : Prop :=
  List.Sorted itemLe (sortTimeline strokes) ∧
    List.Pairwise (fun a b => a.relativeTime = b.relativeTime → tupleLe a b)
      (sortTimeline strokes)

instance (strokes : List Stroke) : Decidable (claimC2At strokes) := by
  unfold claimC2At; infer_instance

/-- Counterexample stroke for C1: two points, at relative times 0 and 100. -/
def ceA : Stroke := ⟨"a", 0, 0, "#000000", 40, [⟨0, 0, 0⟩, ⟨10, 0, 100⟩]⟩

/-- Counterexample stroke for C1: a single point at relative time 50, which
interleaves between `ceA`'s two points. -/
def ceB : Stroke := ⟨"b", 0, 50, "#FF0000", 40, [⟨5, 5, 50⟩]⟩

/-- Counterexample stroke for C2: same start timestamp as `ceD`, three
points. -/
def ceC : Stroke := ⟨"a", 0, 0, "#000000", 40, [⟨0, 0, 0⟩, ⟨0, 0, 5⟩, ⟨0, 0, 10⟩]⟩

/-- Counterexample stroke for C2: same start timestamp as `ceC`, two points;
its second point ties at relative time 10 with `ceC`'s third point. -/
def ceD : Stroke := ⟨"b", 0, 0, "#FF0000", 40, [⟨0, 0, 0⟩, ⟨0, 0, 10⟩]⟩

/-- The first sorted timeline entry of `[ceA, ceB]` (`ceA`'s first point). -/
def itA0 : TimelineItem := ⟨ceA, 0, 0⟩

/-- The second sorted timeline entry of `[ceA, ceB]` (`ceB`'s first point). -/
def itB0 : TimelineItem := ⟨ceB, 0, 50⟩

/-- A surface painted red everywhere, for the compositing witness. -/
def redEverywhere : Surface := fun _ => some "#FF0000"

/-- Concrete canvas state whose ACTIVE layer is painted everywhere. -/
def stC5 : CanvasState := ⟨blankSurface, redEverywhere, blankSurface, [], none, []⟩

/-- Concrete canvas state whose `lastPointRef` holds `(1, 2)`. -/
def stC10 : CanvasState := ⟨blankSurface, blankSurface, blankSurface, [], some (1, 2), []⟩

/-- A `currentStrokeRef` value with an empty point list. -/
def curEmpty : CurrentStroke := ⟨"s0", 0, 0, "#000000", 10, []⟩

/-! Helper lemmas shared by the claim theorems. -/

lemma undo_of_undoStack_nil (st : CanvasState) (h : st.undoStack = []) :
    undo st = (st, false) := by
  simp [undo, h]

lemma undo_of_undoStack_concat (st : CanvasState) (l : List Surface) (s : Surface)
    (h : st.undoStack = l ++ [s]) :
    undo st =
      ({ st with active := s, undoStack := l, display := compositeOf st.base s }, true) := by
  simp [undo, h, List.getLast?_concat, List.dropLast_concat, renderComposite]

lemma undo_base (st : CanvasState) : (undo st).1.base = st.base := by
  rcases List.eq_nil_or_concat st.undoStack with h | ⟨l, s, h⟩
  · rw [undo_of_undoStack_nil st h]
  · rw [undo_of_undoStack_concat st l s (by rw [h, List.concat_eq_append])]

lemma drawStroke_false_frame (x y : ℚ) (now : ℤ) (c : String) (b : ℚ) (st : CanvasState) :
    (drawStroke x y false now c b st).undoStack = st.undoStack ∧
      (drawStroke x y false now c b st).base = st.base := by
  constructor <;> rfl

lemma drawStroke_base (x y : ℚ) (isFirst : Bool) (now : ℤ) (c : String) (b : ℚ)
    (st : CanvasState) : (drawStroke x y isFirst now c b st).base = st.base := by
  cases isFirst <;> rfl

lemma foldl_drawStroke_false_frame (c : String) (b : ℚ) (rest : List (ℚ × ℚ × ℤ))
    (st : CanvasState) :
    (rest.foldl (fun s q => drawStroke q.1 q.2.1 false q.2.2 c b s) st).undoStack =
        st.undoStack ∧
      (rest.foldl (fun s q => drawStroke q.1 q.2.1 false q.2.2 c b s) st).base = st.base := by
  induction rest generalizing st with
  | nil => exact ⟨rfl, rfl⟩
  | cons q rest ih =>
    rw [List.foldl_cons]
    rcases ih (drawStroke q.1 q.2.1 false q.2.2 c b st) with ⟨h1, h2⟩
    rcases drawStroke_false_frame q.1 q.2.1 q.2.2 c b st with ⟨h3, h4⟩
    exact ⟨h1.trans h3, h2.trans h4⟩

lemma paintSegment_self (x y size : ℚ) (c : String) (s : Surface) :
    paintSegment x y x y size c s = s := by
  simp [paintSegment]

lemma foldl_walkStep_completed_mem (strokes : List Stroke) (items : List TimelineItem)
    (st : WalkState) (sid : String) :
    sid ∈ (items.foldl (walkStep strokes) st).completed ↔
      sid ∈ st.completed ∨ startedIn items sid := by
  induction items generalizing st with
  | nil => simp [startedIn]
  | cons a items ih =>
    rw [List.foldl_cons, ih]
    have hs : startedIn (a :: items) sid ↔
        (a.pointIndex = 0 ∧ a.stroke.id = sid) ∨ startedIn items sid := by
      simp [startedIn, List.exists_mem_cons_iff]
    rw [hs]
    by_cases h : a.pointIndex = 0 ∧ a.stroke.id ∉ st.completed
    · have h1 : a.pointIndex = 0 := h.1
      have h2 : a.stroke.id ∉ st.completed := h.2
      simp only [walkStep, h1, eq_self_iff_true, true_and, if_pos h2, List.mem_append,
        List.mem_singleton]
      constructor
      · intro hcase
        rcases hcase with (hm | he) | hst
        · exact Or.inl hm
        · exact Or.inr (Or.inl he.symm)
        · exact Or.inr (Or.inr hst)
      · intro hcase
        rcases hcase with hm | he | hst
        · exact Or.inl (Or.inl hm)
        · exact Or.inl (Or.inr he.symm)
        · exact Or.inr hst
    · simp only [walkStep, if_neg h]
      push_neg at h
      constructor
      · intro hcase
        rcases hcase with hm | hst
        · exact Or.inl hm
        · exact Or.inr (Or.inr hst)
      · intro hcase
        rcases hcase with hm | hrest
        · exact Or.inl hm
        · rcases hrest with ⟨hp, he⟩ | hst
          · exact Or.inl (he ▸ h hp)
          · exact Or.inr hst

lemma foldl_ite_eq_foldl_filter {α β : Type} (p : α → Prop) [DecidablePred p]
    (f : β → α → β) (l : List α) (init : β) :
    l.foldl (fun acc a => if p a then f acc a else acc) init =
      (l.filter fun a => decide (p a)).foldl f init := by
  induction l generalizing init with
  | nil => rfl
  | cons a l ih =>
    by_cases h : p a <;> simp [List.foldl_cons, List.filter_cons, h, ih]

lemma filter_rt_orderedInsert (t : ℤ) (a : TimelineItem) (L : List TimelineItem) :
    (L.orderedInsert itemLe a).filter (fun it => decide (it.relativeTime = t)) =
      (a :: L).filter (fun it => decide (it.relativeTime = t)) := by
  induction L with
  | nil => rfl
  | cons bb L ih =>
    by_cases hab : itemLe a bb
    · rw [List.orderedInsert, if_pos hab]
    · rw [List.orderedInsert, if_neg hab]
      by_cases hbt : bb.relativeTime = t
      · have hat : ¬a.relativeTime = t := fun hat =>
          hab (le_of_eq (hat.trans hbt.symm))
        simp [List.filter_cons, hbt, hat, ih]
      · simp [List.filter_cons, hbt, ih]

lemma filter_rt_insertionSort (t : ℤ) (L : List TimelineItem) :
    (List.insertionSort itemLe L).filter (fun it => decide (it.relativeTime = t)) =
      L.filter (fun it => decide (it.relativeTime = t)) := by
  induction L with
  | nil => rfl
  | cons a L ih =>
    rw [List.insertionSort, filter_rt_orderedInsert]
    simp [List.filter_cons, ih]

lemma ceilSqrtNat_le_sq (m : ℕ) : m ≤ ceilSqrtNat m * ceilSqrtNat m := by
  unfold ceilSqrtNat
  by_cases h : Nat.sqrt m * Nat.sqrt m = m
  · simp [h]
  · simp only [if_neg h]
    exact le_of_lt (by simpa [Nat.succ_eq_add_one] using Nat.lt_succ_sqrt m)

lemma ceilSqrtNat_pred_lt (m : ℕ) (h : ceilSqrtNat m ≠ 0) :
    (ceilSqrtNat m - 1) * (ceilSqrtNat m - 1) < m := by
  unfold ceilSqrtNat at *
  by_cases he : Nat.sqrt m * Nat.sqrt m = m
  · simp only [if_pos he] at h ⊢
    have h1 : Nat.sqrt m - 1 < Nat.sqrt m := by omega
    calc (Nat.sqrt m - 1) * (Nat.sqrt m - 1) < Nat.sqrt m * Nat.sqrt m := by
          nlinarith [h1]
      _ = m := he
  · simp only [if_neg he] at h ⊢
    simp only [Nat.add_sub_cancel]
    exact lt_of_le_of_ne (Nat.sqrt_le m) he

lemma ceilSqrtQ_sq (x : ℚ) (hx : 0 < x) : (ceilSqrtQ (x ^ 2) : ℤ) = ⌈x⌉ := by
  have hx2 : 0 < x ^ 2 := by positivity
  unfold ceilSqrtQ
  rw [if_pos hx2]
  have hcpos : (0 : ℤ) < ⌈x ^ 2⌉ := Int.ceil_pos.mpr hx2
  set m : ℕ := ⌈x ^ 2⌉.toNat with hm
  have hmz : (m : ℤ) = ⌈x ^ 2⌉ := Int.toNat_of_nonneg (le_of_lt hcpos)
  set k : ℕ := ceilSqrtNat m with hk
  have hmq : x ^ 2 ≤ (m : ℚ) := by
    have h1 : x ^ 2 ≤ ((⌈x ^ 2⌉ : ℤ) : ℚ) := Int.le_ceil _
    rw [← hmz] at h1
    exact_mod_cast h1

  have hk2 : (m : ℚ) ≤ (k : ℚ) ^ 2 := by
    have := ceilSqrtNat_le_sq m
    have hcast : (m : ℚ) ≤ ((k * k : ℕ) : ℚ) := by exact_mod_cast this
    rw [Nat.cast_mul] at hcast
    nlinarith [hcast]
  have hxk : x ≤ (k : ℚ) := by nlinarith [hmq, hk2, Nat.cast_nonneg (α := ℚ) k]
  have hk0 : k ≠ 0 := by
    intro h0
    rw [h0] at hxk
    simp at hxk
    exact absurd (lt_of_lt_of_le hx hxk) (lt_irrefl 0)
  have hltn : (k - 1) * (k - 1) + 1 ≤ m := ceilSqrtNat_pred_lt m hk0
  have hlt : ((k - 1 : ℕ) : ℚ) * ((k - 1 : ℕ) : ℚ) + 1 ≤ (m : ℚ) := by
    exact_mod_cast hltn
  have hm1 : (m : ℚ) - 1 < x ^ 2 := by
    have h1 : ((⌈x ^ 2⌉ : ℤ) : ℚ) < x ^ 2 + 1 := Int.ceil_lt_add_one _
    rw [← hmz] at h1
    have h2 : (m : ℚ) < x ^ 2 + 1 := by exact_mod_cast h1
    linarith
  have hks : ((k - 1 : ℕ) : ℚ) = (k : ℚ) - 1 := by
    have : 1 ≤ k := Nat.one_le_iff_ne_zero.mpr hk0
    push_cast [Nat.cast_sub this]
    ring
  have hlt2 : (k : ℚ) - 1 < x := by
    rw [hks] at hlt
    nlinarith [hlt, hm1, hx, hxk]

  have : ⌈x⌉ = (k : ℤ) := by
    rw [Int.ceil_eq_iff]
    constructor
    · push_cast
      exact hlt2
    · push_cast
      exact hxk
  omega

lemma mem_putStroke (store : List Stroke) (s0 s : Stroke) (hs : s ∈ putStroke store s0) :
    s ∈ store ∨ s = s0 := by
  unfold putStroke at hs
  by_cases hany : store.any (fun t => t.id == s0.id)
  · rw [if_pos hany] at hs
    rcases List.mem_map.mp hs with ⟨t, ht, he⟩
    by_cases hid : t.id == s0.id
    · rw [if_pos hid] at he
      exact Or.inr he.symm
    · rw [if_neg hid] at he
      exact Or.inl (he ▸ ht)
  · rw [if_neg hany] at hs
    rcases List.mem_append.mp hs with h | h
    · exact Or.inl h
    · exact Or.inr (List.mem_singleton.mp h)

/-! The claim theorems. -/

/-- C1, counterexample: with strokes `ceA` (two points, at relative times 0
and 100) and `ceB` (one point at relative time 50), the walk of `playNext`
adds `ceA`'s id to `completedStrokes` already after processing the first
timeline entry (`ceA`'s first point), although `ceA`'s last point has not
been drawn at that moment — the code adds the id inside the
`pointIndex === 0` branch, not when a stroke's last point is drawn.  This
falsifies the claim that an id is added to `completed` only when the
stroke's last point has been drawn (and with it the claimed consequence that
the clear-and-redraw repaints only fully completed strokes). -/
theorem C1_counterexample : ¬ completedOnlyAfterLastPoint [ceA, ceB] := by decide

/-- C1, amended: in the walk of `playNext`, a stroke's id is in
`completedStrokes` exactly when the walk has reached that stroke's *first*
point, and the clear-and-redraw triggered by a first point of a
not-yet-started stroke redraws, in stroke-list order and each in its
entirety, exactly the strokes that were previously started (which coincides
with the fully completed strokes only when strokes do not interleave in the
timeline). -/
theorem C1_amended (strokes : List Stroke) (seen : List TimelineItem) (it : TimelineItem)
    (h0 : it.pointIndex = 0) (h1 : ¬startedIn seen it.stroke.id) :
    (∀ sid, sid ∈ (walk strokes seen).completed ↔ startedIn seen sid) ∧
      (walk strokes (seen ++ [it])).completed =
        (walk strokes seen).completed ++ [it.stroke.id] ∧
      (walk strokes (seen ++ [it])).active =
        drawTimelinePoint it
          ((strokes.filter fun s => decide (startedIn seen s.id)).foldl
            (fun acc s => replayPaint s acc) blankSurface) := by
  have hchar : ∀ sid, sid ∈ (walk strokes seen).completed ↔ startedIn seen sid := by
    intro sid
    have h := foldl_walkStep_completed_mem strokes seen walkInit sid
    simpa [walk, walkInit] using h
  have hnotin : it.stroke.id ∉ (walk strokes seen).completed := fun hmem =>
    h1 ((hchar it.stroke.id).mp hmem)
  have happ : walk strokes (seen ++ [it]) = walkStep strokes (walk strokes seen) it := by
    simp [walk, List.foldl_append]
  have hguard : it.pointIndex = 0 ∧ it.stroke.id ∉ (walk strokes seen).completed :=
    ⟨h0, hnotin⟩
  refine ⟨hchar, ?_, ?_⟩
  · rw [happ]
    simp only [walkStep, if_pos hguard]
  · rw [happ]
    simp only [walkStep, if_pos hguard]
    have hfeq : (strokes.filter fun s => decide (s.id ∈ (walk strokes seen).completed)) =
        strokes.filter fun s => decide (startedIn seen s.id) :=
      List.filter_congr fun s _ => decide_eq_decide.mpr (hchar s.id)
    rw [foldl_ite_eq_foldl_filter (fun s => s.id ∈ (walk strokes seen).completed)
      (fun acc s => replayPaint s acc) strokes blankSurface, hfeq]

/-- C1, witness for the amended theorem: concrete instance with
`strokes = [ceA, ceB]`, the already-processed timeline `[itA0]` (`ceA`'s
first point) and the incoming entry `itB0` (`ceB`'s first point). -/
theorem C1_amended_witness :
    (itB0.pointIndex = 0 ∧ ¬startedIn [itA0] itB0.stroke.id) ∧
      ((∀ sid, sid ∈ (walk [ceA, ceB] [itA0]).completed ↔ startedIn [itA0] sid) ∧
        (walk [ceA, ceB] ([itA0] ++ [itB0])).completed =
          (walk [ceA, ceB] [itA0]).completed ++ [itB0.stroke.id] ∧
        (walk [ceA, ceB] ([itA0] ++ [itB0])).active =
          drawTimelinePoint itB0
            (([ceA, ceB].filter fun s => decide (startedIn [itA0] s.id)).foldl
              (fun acc s => replayPaint s acc) blankSurface)) :=
  ⟨⟨rfl, by decide⟩, C1_amended [ceA, ceB] [itA0] itB0 rfl (by decide)⟩

/-- C2, counterexample: with strokes `ceC` and `ceD` sharing start timestamp
0, the sorted timeline places `ceC`'s third point (`pointIndex = 2`) before
`ceD`'s second point (`pointIndex = 1`) although both have relative time 10
and `ceD`'s entry is strictly smaller in the claimed tie-break tuple
`(turnNumber, strokeTimestamp, pointIndex)`: the stable sort breaks ties by
flatten position (stroke position in the list, then point index), not by
that tuple. -/
theorem C2_counterexample : ¬claimC2At [ceC, ceD] := by decide

/-- C2, amended: the flattened timeline of `playTimelapse` is sorted by
(relative) timestamp ascending, is a permutation of the flattened entry
list, and for every pair of entries with equal timestamps the resulting
order is the flatten order — the stroke's position in the retrieved list,
then `pointIndex` (captured here by the filter-stability equation: the
subsequence of entries at any fixed timestamp is exactly its flatten-order
subsequence).  For a fixed stroke list the result is deterministic. -/
theorem C2_amended (strokes : List Stroke) :
    List.Sorted itemLe (sortTimeline strokes) ∧
      List.Perm (sortTimeline strokes) (buildTimeline strokes) ∧
      ∀ t : ℤ,
        (sortTimeline strokes).filter (fun it => decide (it.relativeTime = t)) =
          (buildTimeline strokes).filter (fun it => decide (it.relativeTime = t)) :=
  ⟨List.sorted_insertionSort itemLe _, List.perm_insertionSort itemLe _,
    fun t => filter_rt_insertionSort t _⟩

/-- C3: drawing one whole stroke (snapshot pushed at its first point,
followed by any sequence of further points) and then calling `undo` restores
the ACTIVE surface to exactly its state before the stroke began, pops
exactly that one snapshot, and leaves BASE untouched — one undo step removes
one whole stroke, not one dab. -/
theorem C3_undo_inverts_whole_stroke (st : CanvasState) (x0 y0 : ℚ) (t0 : ℤ) (c : String)
    (b : ℚ) (rest : List (ℚ × ℚ × ℤ)) :
    (undo (rest.foldl (fun s q => drawStroke q.1 q.2.1 false q.2.2 c b s)
        (drawStroke x0 y0 true t0 c b st))).2 = true ∧
      (undo (rest.foldl (fun s q => drawStroke q.1 q.2.1 false q.2.2 c b s)
          (drawStroke x0 y0 true t0 c b st))).1.active = st.active ∧
      (undo (rest.foldl (fun s q => drawStroke q.1 q.2.1 false q.2.2 c b s)
          (drawStroke x0 y0 true t0 c b st))).1.undoStack = st.undoStack ∧
      (undo (rest.foldl (fun s q => drawStroke q.1 q.2.1 false q.2.2 c b s)
          (drawStroke x0 y0 true t0 c b st))).1.base = st.base := by
  have hfr := foldl_drawStroke_false_frame c b rest (drawStroke x0 y0 true t0 c b st)
  have hstack : (rest.foldl (fun s q => drawStroke q.1 q.2.1 false q.2.2 c b s)
      (drawStroke x0 y0 true t0 c b st)).undoStack = st.undoStack ++ [st.active] := hfr.1
  have hbase : (rest.foldl (fun s q => drawStroke q.1 q.2.1 false q.2.2 c b s)
      (drawStroke x0 y0 true t0 c b st)).base = st.base := hfr.2
  rw [undo_of_undoStack_concat _ st.undoStack st.active hstack]
  exact ⟨rfl, rfl, rfl, hbase⟩

/-- C4: `clearActive` leaves the undo stack empty and ACTIVE blank (this is
what runs at turn start, on merge and on reset); `mergeLayers` first draws
the whole ACTIVE surface onto BASE by straight overwrite of painted pixels
and then clears ACTIVE (undo stack empty, ACTIVE blank); and no other
operation writes to BASE — `drawStroke`, `undo` and `replayStroke` all leave
BASE unchanged. -/
theorem C4_clear_merge_and_frame (st : CanvasState) :
    (clearActive st).active = blankSurface ∧
      (clearActive st).undoStack = [] ∧
      (clearActive st).base = st.base ∧
      (mergeLayers st).active = blankSurface ∧
      (mergeLayers st).undoStack = [] ∧
      (mergeLayers st).base = overlay st.active st.base ∧
      (∀ x y isFirst now c b, (drawStroke x y isFirst now c b st).base = st.base) ∧
      (undo st).1.base = st.base ∧
      ∀ s, (replayStroke s st).base = st.base := by
  refine ⟨rfl, rfl, rfl, rfl, rfl, rfl, ?_, undo_base st, fun s => rfl⟩
  intro x y isFirst now c b
  exact drawStroke_base x y isFirst now c b st

/-- C5: `renderComposite` produces the visible composite as the white
background fill, then BASE, then ACTIVE strictly on top: at every location
the composite shows ACTIVE's pixel when ACTIVE is painted there, else
BASE's, else white; in particular wherever ACTIVE has a painted pixel the
composite shows exactly ACTIVE's pixel. -/
theorem C5_composite_active_on_top (st : CanvasState) (p : ℚ × ℚ) (c : String)
    (h : st.active p = some c) :
    (renderComposite st).display = compositeOf st.base st.active ∧
      (∀ q, (renderComposite st).display q =
        match st.active q with
        | some cc => some cc
        | none =>
          match st.base q with
          | some cc => some cc
          | none => some "#FFFFFF") ∧
      (renderComposite st).display p = some c := by
  refine ⟨rfl, ?_, ?_⟩
  · intro q
    cases h1 : st.active q <;> cases h2 : st.base q <;>
      simp [renderComposite, compositeOf, overlay, whiteFill, h1, h2]
  · simp [renderComposite, compositeOf, overlay, h]

/-- C5, witness: a concrete state whose ACTIVE layer paints `(0, 0)` red has
a red composite there. -/
theorem C5_witness :
    stC5.active (0, 0) = some "#FF0000" ∧
      (renderComposite stC5).display (0, 0) = some "#FF0000" :=
  ⟨rfl, (C5_composite_active_on_top stC5 (0, 0) "#FF0000" rfl).2.2⟩

/-- C6: for consecutive sample points at positive distance `d` and brush
size `b > 0`, the source's interpolation count `steps = ⌈d / (b/4)⌉` is
positive, the resulting dab spacing `d / steps` never exceeds `b/4`, and
this count is exactly the `ceilSqrtQ` expression `drawStroke`,
`replayStroke` and `playNext` are embedded with (computed from the squared
distance). -/
theorem C6_interpolation_spacing (d b : ℚ) (hd : 0 < d) (hb : 0 < b) :
    0 < interpSteps d b ∧
      d / ((interpSteps d b : ℤ) : ℚ) ≤ b / 4 ∧
      (ceilSqrtQ (d * d / (b / 4 * (b / 4))) : ℤ) = interpSteps d b := by
  have hb4 : 0 < b / 4 := by positivity
  have hx : 0 < d / (b / 4) := by positivity
  have hsteps : 0 < interpSteps d b := Int.ceil_pos.mpr hx
  refine ⟨hsteps, ?_, ?_⟩
  · have hle : d / (b / 4) ≤ ((interpSteps d b : ℤ) : ℚ) := Int.le_ceil _
    have hspos : (0 : ℚ) < ((interpSteps d b : ℤ) : ℚ) := by exact_mod_cast hsteps
    rw [div_le_iff₀ hspos]
    rw [div_le_iff₀ hb4] at hle
    linarith
  · have hx2 : d * d / (b / 4 * (b / 4)) = (d / (b / 4)) ^ 2 := by
      field_simp
      ring
    rw [hx2, ceilSqrtQ_sq _ hx]
    rfl

/-- C6, witness: at distance 3 and brush size 4 the spacing bound and step
count hold concretely. -/
theorem C6_witness :
    (0 : ℚ) < 3 ∧ (0 : ℚ) < 4 ∧
      (0 < interpSteps 3 4 ∧
        (3 : ℚ) / ((interpSteps 3 4 : ℤ) : ℚ) ≤ 4 / 4 ∧
        (ceilSqrtQ ((3 : ℚ) * 3 / (4 / 4 * (4 / 4))) : ℤ) = interpSteps 3 4) :=
  ⟨by decide, by decide, C6_interpolation_spacing 3 4 (by decide) (by decide)⟩

/-- C7: finalizing a gesture whose point sequence is empty is a silent
no-op — nothing is submitted to the stroke store and `currentStrokeRef` is
left as is; and persistence preserves the invariant that every stored stroke
has a non-empty point sequence. -/
theorem C7_empty_stroke_not_persisted (store : List Stroke) (cur : Option CurrentStroke)
    (c : CurrentStroke) (hstore : ∀ s ∈ store, s.points ≠ []) :
    (cur = some c → c.points = [] →
      strokeToSave cur = none ∧ saveCurrentStroke cur store = (store, cur)) ∧
      ∀ s ∈ (saveCurrentStroke cur store).1, s.points ≠ [] := by
  constructor
  · rintro rfl hpts
    have hnone : strokeToSave (some c) = none := by
      simp [strokeToSave, hpts]
    exact ⟨hnone, by simp [saveCurrentStroke, hnone]⟩
  · intro s hs
    rcases hcur : strokeToSave cur with _ | s0
    · simp only [saveCurrentStroke, hcur] at hs
      exact hstore s hs
    · have hs0 : s0.points ≠ [] := by
        rcases cur with _ | c2
        · simp [strokeToSave] at hcur
        · by_cases hlen : 0 < c2.points.length
          · simp only [strokeToSave, if_pos hlen, Option.some.injEq] at hcur
            rw [← hcur]
            exact List.ne_nil_of_length_pos hlen
          · simp [strokeToSave, hlen] at hcur
      simp only [saveCurrentStroke, hcur] at hs
      rcases mem_putStroke store s0 s hs with h | h
      · exact hstore s h
      · rw [h]
        exact hs0

/-- C7, witness: with an empty store and a current stroke with no points,
nothing is persisted and the store invariant holds. -/
theorem C7_witness :
    (∀ s ∈ ([] : List Stroke), s.points ≠ []) ∧
      ((some curEmpty = some curEmpty → curEmpty.points = [] →
        strokeToSave (some curEmpty) = none ∧
          saveCurrentStroke (some curEmpty) [] = ([], some curEmpty)) ∧
        ∀ s ∈ (saveCurrentStroke (some curEmpty) []).1, s.points ≠ []) :=
  ⟨by simp, C7_empty_stroke_not_persisted [] (some curEmpty) curEmpty (by simp)⟩

/-- C8: calling `undo` with an empty undo stack returns `false` and leaves
the whole state (ACTIVE, BASE and the displayed composite) unchanged — a
caller-visible no-op, not an error; with a non-empty stack it removes
exactly the most recent snapshot, restores ACTIVE to it and recomposites. -/
theorem C8_undo_empty_noop_or_pop (st : CanvasState) :
    match st.undoStack.getLast? with
    | none => undo st = (st, false)
    | some s =>
        undo st =
          ({ st with
              active := s
              undoStack := st.undoStack.dropLast
              display := compositeOf st.base s },
            true) := by
  rcases List.eq_nil_or_concat st.undoStack with h | ⟨l, s, h⟩
  · rw [h]
    exact undo_of_undoStack_nil st h
  · rw [List.concat_eq_append] at h
    rw [h]
    simp only [List.getLast?_concat, List.dropLast_concat]
    exact undo_of_undoStack_concat st l s h

/-- C9: `undo` never modifies the BASE surface (successful or not); it also
leaves the gesture state (`lastPointRef`, the recorded point stream)
untouched, writing only to ACTIVE, the undo stack and the display. -/
theorem C9_undo_never_touches_base (st : CanvasState) :
    (undo st).1.base = st.base ∧ (undo st).1.lastPoint = st.lastPoint ∧
      (undo st).1.recorded = st.recorded := by
  rcases List.eq_nil_or_concat st.undoStack with h | ⟨l, s, h⟩
  · rw [undo_of_undoStack_nil st h]
    exact ⟨rfl, rfl, rfl⟩
  · rw [List.concat_eq_append] at h
    rw [undo_of_undoStack_concat st l s h]
    exact ⟨rfl, rfl, rfl⟩

/-- C10: a non-first sample point equal to the previous point paints no dab
at all — in `drawStroke` the positive-distance guard skips painting and no
single-dab fallback runs, while the point is still recorded and becomes the
new last point; and in the replay loop a point equal to its predecessor
contributes no paint either. -/
theorem C10_zero_distance_paints_nothing (st : CanvasState) (x y : ℚ) (now : ℤ)
    (c : String) (b : ℚ) (p : Point) (rest : List Point) (surf : Surface)
    (h : st.lastPoint = some (x, y)) :
    (drawStroke x y false now c b st).active = st.active ∧
      (drawStroke x y false now c b st).lastPoint = some (x, y) ∧
      (drawStroke x y false now c b st).recorded = st.recorded ++ [⟨x, y, now, false⟩] ∧
      (drawStroke x y false now c b st).undoStack = st.undoStack ∧
      (drawStroke x y false now c b st).base = st.base ∧
      replayFrom b c (some p) (p :: rest) surf = replayFrom b c (some p) rest surf := by
  refine ⟨?_, rfl, rfl, rfl, rfl, ?_⟩
  · have h2 : (drawStroke x y false now c b st).active =
        livePaint st.lastPoint false x y b c st.active := rfl
    rw [h2, h]
    exact paintSegment_self x y b c st.active
  · show replayFrom b c (some p) rest (paintSegment p.x p.y p.x p.y b c surf) =
      replayFrom b c (some p) rest surf
    rw [paintSegment_self]

/-- C10, witness: concrete state with `lastPointRef = (1, 2)` and the same
point drawn again. -/
theorem C10_witness :
    stC10.lastPoint = some (1, 2) ∧
      ((drawStroke 1 2 false 7 "#000000" 10 stC10).active = stC10.active ∧
        (drawStroke 1 2 false 7 "#000000" 10 stC10).lastPoint = some (1, 2) ∧
        (drawStroke 1 2 false 7 "#000000" 10 stC10).recorded =
          stC10.recorded ++ [⟨1, 2, 7, false⟩] ∧
        (drawStroke 1 2 false 7 "#000000" 10 stC10).undoStack = stC10.undoStack ∧
        (drawStroke 1 2 false 7 "#000000" 10 stC10).base = stC10.base ∧
        replayFrom 10 "#000000" (some defaultPoint) (defaultPoint :: []) blankSurface =
          replayFrom 10 "#000000" (some defaultPoint) [] blankSurface) :=
  ⟨rfl, C10_zero_distance_paints_nothing stC10 1 2 7 "#000000" 10 defaultPoint [] blankSurface rfl⟩

end Everydays
